import Mathlib

/-!
Verification development for the "Robust Question Answering with Chroma and
OpenAI" notebook (`examples/vector_databases/chroma/hyde-with-chroma-and-openai.ipynb`).

The notebook's pure data manipulation is embedded shallowly:
* chat-completion calls are modelled by an oracle from the prompt (a list of
  messages) to the returned message content;
* the Chroma collection query is modelled by an oracle from the query texts to
  a query result (parallel lists of ids, documents and distances per query);
* Python floats appear only in order comparisons against a threshold, so
  distances are embedded as rationals;
* Python runtime failures (the `assert` in `confusion_matrix`, `KeyError` on
  dict lookup, `IndexError` on list indexing) are embedded as `Except`/`Option`
  error results.
-/

/-- A chat message: one `{"role": ..., "content": ...}` dictionary. -/
structure Message where
  role : String
  content : String
deriving DecidableEq

/-- Model of `client.chat.completions.create(...).choices[0].message.content`:
an oracle mapping the `messages` argument to the returned content. -/
abbrev ChatOracle : Type := List Message → String

/-- The character set of Python `.strip('., ')`. -/
def isStripChar (c : Char) : Bool := c == '.' || c == ',' || c == ' '

/-- Python `s.strip('., ')`: remove leading and trailing characters drawn from
`{'.', ',', ' '}`. -/
def pyStrip (s : String) : String :=
  String.mk (((s.data.dropWhile isStripChar).reverse.dropWhile isStripChar).reverse)

/-- `build_prompt(claim)` from the notebook. -/
def build_prompt (claim : String) : List Message :=
  [{ role := "system",
     content := "I will ask you to assess a scientific claim. Output only the text \x27True\x27 if the claim is true, \x27False\x27 if the claim is false, or \x27NEE\x27 if there\x27s not enough evidence." },
   { role := "user",
     content := "\nExample:\n\nClaim:\n0-dimensional biomaterials show inductive properties.\n\nAssessment:\nFalse\n\nClaim:\n1/2000 in UK have abnormal PrP positivity.\n\nAssessment:\nTrue\n\nClaim:\nAspirin inhibits the production of PGE2.\n\nAssessment:\nFalse\n\nEnd of examples. Assess the following claim:\n\nClaim:\n" ++ claim ++ "\n\nAssessment:\n" }]

/-- `assess_claims(claims)`: one API call per claim, appending the stripped
response content to the `responses` list. -/
def assess_claims (oracle : ChatOracle) (claims : List String) : List String :=
  claims.foldl (fun responses claim => responses ++ [pyStrip (oracle (build_prompt claim))]) []

/-- One sentence-level annotation inside a SciFact evidence dictionary:
`{'sentences': [...], 'label': ...}`. -/
structure EvidenceRecord where
  sentences : List Nat
  label : String
deriving DecidableEq

/-- A SciFact evidence dictionary: document id keys mapping to lists of
sentence-level annotation dictionaries, in insertion order. -/
abbrev Evidence : Type := List (String × List EvidenceRecord)

/-- The body of the `get_groundtruth` loop on one evidence dictionary `e`:
`'NEE'` if `len(e) == 0`, else inspect `list(e.values())[0][0]['label']`.
`none` models the `IndexError` Python raises when the first value is an empty
list. -/
def groundtruthOf (e : Evidence) : Option String :=
  match e with
  | [] => some "NEE"
  | (_, anns) :: _ =>
    match anns with
    | [] => none
    | a :: _ => if a.label = "SUPPORT" then some "True" else some "False"

/-- `get_groundtruth(evidence)`: the loop over evidence dictionaries,
stopping at the first Python error. -/
def get_groundtruth : List Evidence → Option (List String)
  | [] => some []
  | e :: rest =>
    match groundtruthOf e with
    | none => none
    | some g =>
      match get_groundtruth rest with
      | none => none
      | some gs => some (g :: gs)

/-- The 3x3 confusion dictionary: rows keyed by inferred label, inner
dictionaries keyed by groundtruth label. -/
abbrev Table : Type := List (String × List (String × Nat))

/-- The dictionary literal initializing `confusion` in `confusion_matrix`. -/
def confusion_init : Table :=
  [("True", [("True", 0), ("False", 0), ("NEE", 0)]),
   ("False", [("True", 0), ("False", 0), ("NEE", 0)]),
   ("NEE", [("True", 0), ("False", 0), ("NEE", 0)])]

/-- Python `row[g] += 1` on an inner dictionary: `none` models `KeyError`. -/
def dictIncr (row : List (String × Nat)) (g : String) : Option (List (String × Nat)) :=
  match row with
  | [] => none
  | (k, v) :: rest =>
    if k = g then some ((k, v + 1) :: rest)
    else
      match dictIncr rest g with
      | none => none
      | some r => some ((k, v) :: r)

/-- Python `confusion[i][g] += 1`: `none` models `KeyError` on either lookup. -/
def tableIncr (tab : Table) (i g : String) : Option Table :=
  match tab with
  | [] => none
  | (k, row) :: rest =>
    if k = i then
      match dictIncr row g with
      | none => none
      | some r => some ((k, r) :: rest)
    else
      match tableIncr rest i g with
      | none => none
      | some r2 => some ((k, row) :: r2)

/-- Errors `confusion_matrix` can raise: the failed `assert`, or a `KeyError`
from `confusion[i][g] += 1`. -/
inductive CMError where
  | assertionError : CMError
  | keyError : CMError
deriving DecidableEq

/-- The `for i, g in zip(inferred, groundtruth)` tally loop of
`confusion_matrix`. -/
def cmFold : List (String × String) → Table → Except CMError Table
  | [], tab => .ok tab
  | (i, g) :: rest, tab =>
    match tableIncr tab i g with
    | none => .error .keyError
    | some tab2 => cmFold rest tab2

/-- `confusion_matrix(inferred, groundtruth)`: assert equal lengths, then
tally the zipped label pairs into the 3x3 dictionary.  (The pretty-printing
in the Python function only reads the dictionary; the returned value is the
dictionary itself.) -/
def confusion_matrix (inferred groundtruth : List String) : Except CMError Table :=
  if inferred.length = groundtruth.length then
    cmFold (inferred.zip groundtruth) confusion_init
  else
    .error .assertionError

/-- `build_prompt_with_context(claim, context)` from the notebook.  The user
content of the source f-string begins with a literal `"` character (the
`f""""` in the source). -/
def build_prompt_with_context (claim : String) (context : List String) : List Message :=
  [{ role := "system",
     content := "I will ask you to assess whether a particular scientific claim, based on evidence provided. Output only the text \x27True\x27 if the claim is true, \x27False\x27 if the claim is false, or \x27NEE\x27 if there\x27s not enough evidence." },
   { role := "user",
     content := "\"\nThe evidence is the following:\n\n" ++ String.intercalate " " context ++ "\n\nAssess the following claim on the basis of the evidence. Output only the text \x27True\x27 if the claim is true, \x27False\x27 if the claim is false, or \x27NEE\x27 if there\x27s not enough evidence. Do not output any other text.\n\nClaim:\n" ++ claim ++ "\n\nAssessment:\n" }]

/-- `assess_claims_with_context(claims, contexts)`: for each zipped pair,
answer `'NEE'` directly when the context is empty, otherwise call the API and
strip the response. -/
def assess_claims_with_context (oracle : ChatOracle) (claims : List String)
    (contexts : List (List String)) : List String :=
  (claims.zip contexts).foldl
    (fun responses p =>
      if p.2.length = 0 then responses ++ ["NEE"]
      else responses ++ [pyStrip (oracle (build_prompt_with_context p.1 p.2))])
    []

/-- A Chroma query result: for each query, parallel lists of ids, documents
and distances (the keys used by the notebook's
`query(..., include=['documents', 'distances'], n_results=3)` calls). -/
structure QueryResult where
  ids : List (List String)
  documents : List (List String)
  distances : List (List ℚ)
deriving DecidableEq

/-- Model of `scifact_corpus_collection.query(query_texts=..., ...)`: an
oracle from the query texts to a query result. -/
abbrev QueryOracle : Type := List String → QueryResult

/-- The inner loop of `filter_query_result` on one query's triple
`(ids, docs, distances)`: `for i in range(len(ids)-1, -1, -1)`, popping index
`i` from all three lists when `distances[i] > distance_threshold`.  The fuel
argument is the next index plus one; an out-of-range read of `distances[i]`
(impossible for the aligned inputs the notebook produces, where Python would
raise `IndexError`) is modelled as a skip. -/
def popPass (t : ℚ) : Nat → List String × List String × List ℚ → List String × List String × List ℚ
  | 0, s => s
  | i + 1, (ids, docs, dists) =>
    if h : i < dists.length then
      if dists.get ⟨i, h⟩ > t then
        popPass t i (ids.eraseIdx i, docs.eraseIdx i, dists.eraseIdx i)
      else
        popPass t i (ids, docs, dists)
    else
      popPass t i (ids, docs, dists)

/-- `filter_query_result` restricted to one query's triple of parallel
lists. -/
def filterTriple (t : ℚ) (ids docs : List String) (dists : List ℚ) :
    List String × List String × List ℚ :=
  popPass t ids.length (ids, docs, dists)

/-- Python `zip(a, b, c)`: truncates to the shortest of the three lists. -/
def zip3 {α β γ : Type} (as : List α) (bs : List β) (cs : List γ) : List (α × β × γ) :=
  as.zip (bs.zip cs)

/-- The default value of the `distance_threshold` parameter of
`filter_query_result`. -/
def distance_threshold_default : ℚ := 0.25

/-- `filter_query_result(query_result, distance_threshold)`: mutate each
zipped triple of per-query lists in place and return the same dictionary.
Inner lists beyond the zipped prefix (absent in the notebook, where the three
outer lists always have equal length) are left untouched. -/
def filter_query_result (query_result : QueryResult) (distance_threshold : ℚ) : QueryResult :=
  let triples := (zip3 query_result.ids query_result.documents query_result.distances).map
    (fun p => filterTriple distance_threshold p.1 p.2.1 p.2.2)
  { ids := triples.map (fun p => p.1) ++ query_result.ids.drop triples.length,
    documents := triples.map (fun p => p.2.1) ++ query_result.documents.drop triples.length,
    distances := triples.map (fun p => p.2.2) ++ query_result.distances.drop triples.length }

/-- `build_hallucination_prompt(claim)` from the notebook.  The user content
of the source f-string begins with a literal `"` character (the `f""""` in
the source). -/
def build_hallucination_prompt (claim : String) : List Message :=
  [{ role := "system",
     content := "I will ask you to write an abstract for a scientific paper which supports or refutes a given claim. It should be written in scientific language, include a title. Output only one abstract, then stop.\n\n    An Example:\n\n    Claim:\n    A high microerythrocyte count raises vulnerability to severe anemia in homozygous alpha (+)- thalassemia trait subjects.\n\n    Abstract:\n    BACKGROUND The heritable haemoglobinopathy alpha(+)-thalassaemia is caused by the reduced synthesis of alpha-globin chains that form part of normal adult haemoglobin (Hb). Individuals homozygous for alpha(+)-thalassaemia have microcytosis and an increased erythrocyte count. Alpha(+)-thalassaemia homozygosity confers considerable protection against severe malaria, including severe malarial anaemia (SMA) (Hb concentration < 50 g/l), but does not influence parasite count. We tested the hypothesis that the erythrocyte indices associated with alpha(+)-thalassaemia homozygosity provide a haematological benefit during acute malaria.\n    METHODS AND FINDINGS Data from children living on the north coast of Papua New Guinea who had participated in a case-control study of the protection afforded by alpha(+)-thalassaemia against severe malaria were reanalysed to assess the genotype-specific reduction in erythrocyte count and Hb levels associated with acute malarial disease. We observed a reduction in median erythrocyte count of approximately 1.5 x 10(12)/l in all children with acute falciparum malaria relative to values in community children (p < 0.001). We developed a simple mathematical model of the linear relationship between Hb concentration and erythrocyte count. This model predicted that children homozygous for alpha(+)-thalassaemia lose less Hb than children of normal genotype for a reduction in erythrocyte count of >1.1 x 10(12)/l as a result of the reduced mean cell Hb in homozygous alpha(+)-thalassaemia. In addition, children homozygous for alpha(+)-thalassaemia require a 10% greater reduction in erythrocyte count than children of normal genotype (p = 0.02) for Hb concentration to fall to 50 g/l, the cutoff for SMA. We estimated that the haematological profile in children homozygous for alpha(+)-thalassaemia reduces the risk of SMA during acute malaria compared to children of normal genotype (relative risk 0.52; 95% confidence interval [CI] 0.24-1.12, p = 0.09).\n    CONCLUSIONS The increased erythrocyte count and microcytosis in children homozygous for alpha(+)-thalassaemia may contribute substantially to their protection against SMA. A lower concentration of Hb per erythrocyte and a larger population of erythrocytes may be a biologically advantageous strategy against the significant reduction in erythrocyte count that occurs during acute infection with the malaria parasite Plasmodium falciparum. This haematological profile may reduce the risk of anaemia by other Plasmodium species, as well as other causes of anaemia. Other host polymorphisms that induce an increased erythrocyte count and microcytosis may confer a similar advantage.\n\n    End of example.\n\n    " },
   { role := "user",
     content := "\"\n    Perform the task for the following claim.\n\n    Claim:\n    " ++ claim ++ "\n\n    Abstract:\n    " }]

/-- `hallucinate_evidence(claims)`: one API call per claim, appending the raw
(unstripped) response content. -/
def hallucinate_evidence (oracle : ChatOracle) (claims : List String) : List String :=
  claims.foldl (fun responses claim => responses ++ [oracle (build_hallucination_prompt claim)]) []

/-- The notebook cell
`hallucinated_query_result = scifact_corpus_collection.query(query_texts=hallucinated_evidence, ...)`. -/
def hallucinated_query_result (queryO : QueryOracle) (chatO : ChatOracle)
    (claims : List String) : QueryResult :=
  queryO (hallucinate_evidence chatO claims)

/-- The notebook cell
`filtered_hallucinated_query_result = filter_query_result(hallucinated_query_result)`
(default threshold). -/
def filtered_hallucinated_query_result (queryO : QueryOracle) (chatO : ChatOracle)
    (claims : List String) : QueryResult :=
  filter_query_result (hallucinated_query_result queryO chatO claims) distance_threshold_default

/-- The notebook cell `claim_query_result = scifact_corpus_collection.query(query_texts=claims, ...)`. -/
def claim_query_result (queryO : QueryOracle) (claims : List String) : QueryResult :=
  queryO claims

/-- The notebook cell
`filtered_claim_query_result = filter_query_result(claim_query_result)`
(default threshold). -/
def filtered_claim_query_result (queryO : QueryOracle) (claims : List String) : QueryResult :=
  filter_query_result (claim_query_result queryO claims) distance_threshold_default

/-- One row of the SciFact corpus dataframe. -/
structure CorpusRow where
  doc_id : Int
  title : String
  abstract : List String
  structured : Bool
deriving DecidableEq

/-- The `batch_size = 100` of the corpus-ingestion loop. -/
def batch_size : Nat := 100

/-- Python `range(0, n, step)` for positive `step`. -/
def strideRange (n step : Nat) : List Nat :=
  (List.range ((n + step - 1) / step)).map (fun j => step * j)

/-- The batches `corpus_df[i:i+batch_size]` for `i in range(0, len(corpus_df), batch_size)`. -/
def corpus_batches (rows : List CorpusRow) : List (List CorpusRow) :=
  (strideRange rows.length batch_size).map (fun i => (rows.drop i).take batch_size)

/-- The id passed to `scifact_corpus_collection.add` for one row:
`str(doc_id)`. -/
def rowId (r : CorpusRow) : String := toString r.doc_id

/-- The document passed to `scifact_corpus_collection.add` for one row:
`title + '. ' + ' '.join(abstract)`. -/
def rowDocument (r : CorpusRow) : String :=
  r.title ++ ". " ++ String.intercalate " " r.abstract

/-- The `(id, document, metadata)` records accumulated in the collection by
the ingestion loop, batch by batch; each batch's `ids`, `documents` and
`metadatas` lists are aligned by row. -/
def added_records (rows : List CorpusRow) : List (String × String × Bool) :=
  (corpus_batches rows).flatMap (fun b => b.map (fun r => (rowId r, rowDocument r, r.structured)))

/-- Specification-side simultaneous filter: keep exactly the entries of the
first list whose aligned distance is at most the threshold. -/
def filterAligned {α : Type} (t : ℚ) : List α → List ℚ → List α
  | [], _ => []
  | _ :: _, [] => []
  | a :: as, d :: ds => if d ≤ t then a :: filterAligned t as ds else filterAligned t as ds

theorem filterAligned_nil {α : Type} (t : ℚ) (ds : List ℚ) :
    filterAligned (α := α) t [] ds = [] := by
  cases ds <;> rfl

theorem length_filterAligned {α : Type} (t : ℚ) :
    ∀ (as : List α) (ds : List ℚ), as.length = ds.length →
      (filterAligned t as ds).length = (ds.filter (fun d => decide (d ≤ t))).length := by
  intro as
  induction as with
  | nil => intro ds h; cases ds with
    | nil => simp [filterAligned]
    | cons d ds => simp at h
  | cons a as ih =>
    intro ds h
    cases ds with
    | nil => simp at h
    | cons d ds =>
      simp only [List.length_cons, Nat.succ.injEq] at h
      by_cases hd : d ≤ t
      · simp [filterAligned, List.filter_cons, hd, ih ds h]
      · simp [filterAligned, List.filter_cons, hd, ih ds h]

theorem filterAligned_snoc {α : Type} (t : ℚ) :
    ∀ (as : List α) (ds : List ℚ) (a : α) (d : ℚ), as.length = ds.length →
      filterAligned t (as ++ [a]) (ds ++ [d]) =
        filterAligned t as ds ++ (if d ≤ t then [a] else []) := by
  intro as
  induction as with
  | nil => intro ds a d h
           cases ds with
           | nil => by_cases hd : d ≤ t <;> simp [filterAligned, hd]
           | cons e ds => simp at h
  | cons a0 as ih =>
    intro ds a d h
    cases ds with
    | nil => simp at h
    | cons e ds =>
      simp only [List.length_cons, Nat.succ.injEq] at h
      by_cases he : e ≤ t <;> simp [filterAligned, he, ih ds a d h]

/-- Re-filtering an already filtered pair of aligned lists changes nothing. -/
theorem filterAligned_filterAligned {α : Type} (t : ℚ) :
    ∀ (as : List α) (ds : List ℚ),
      filterAligned t (filterAligned t as ds) (ds.filter (fun d => decide (d ≤ t))) =
        filterAligned t as ds := by
  intro as
  induction as with
  | nil => intro ds; rw [filterAligned_nil, filterAligned_nil]
  | cons a as ih =>
    intro ds
    cases ds with
    | nil => simp [filterAligned]
    | cons d ds =>
      by_cases hd : d ≤ t
      · simp [filterAligned, List.filter_cons, hd, ih ds]
      · simp [filterAligned, List.filter_cons, hd, ih ds]

/-- The backward pop loop, run down from index `k`, filters the first `k`
positions and leaves the suffixes from position `k` on untouched. -/
theorem popPass_spec (t : ℚ) :
    ∀ (k : Nat) (ids docs : List String) (dists : List ℚ),
      docs.length = ids.length → dists.length = ids.length → k ≤ ids.length →
      popPass t k (ids, docs, dists) =
        (filterAligned t (ids.take k) (dists.take k) ++ ids.drop k,
         filterAligned t (docs.take k) (dists.take k) ++ docs.drop k,
         (dists.take k).filter (fun d => decide (d ≤ t)) ++ dists.drop k) := by
  intro k
  induction k with
  | zero =>
    intro ids docs dists h1 h2 h3
    simp [popPass, filterAligned_nil]
  | succ k ih =>
    intro ids docs dists h1 h2 h3
    have hk : k < ids.length := Nat.lt_of_succ_le h3
    have hkdoc : k < docs.length := by omega
    have hkd : k < dists.length := by omega
    have htlen : (ids.take k).length = (dists.take k).length := by
      simp [List.length_take]; omega
    have htlen2 : (docs.take k).length = (dists.take k).length := by
      simp [List.length_take]; omega
    have hids : ids.take (k + 1) = ids.take k ++ [ids[k]] := by
      rw [List.take_succ, List.getElem?_eq_getElem hk]; rfl
    have hdocs : docs.take (k + 1) = docs.take k ++ [docs[k]] := by
      rw [List.take_succ, List.getElem?_eq_getElem hkdoc]; rfl
    have hdists : dists.take (k + 1) = dists.take k ++ [dists[k]] := by
      rw [List.take_succ, List.getElem?_eq_getElem hkd]; rfl
    rw [popPass, dif_pos hkd]
    by_cases hgt : dists.get ⟨k, hkd⟩ > t
    · rw [if_pos hgt]
      have hle : ¬ (dists[k] ≤ t) := by
        simpa [List.get_eq_getElem] using hgt
      have e1 : (ids.eraseIdx k).length = ids.length - 1 := by
        rw [List.length_eraseIdx]; simp [hk]
      have e2 : (docs.eraseIdx k).length = docs.length - 1 := by
        rw [List.length_eraseIdx]; simp [hkdoc]
      have e3 : (dists.eraseIdx k).length = dists.length - 1 := by
        rw [List.length_eraseIdx]; simp [hkd]
      rw [ih (ids.eraseIdx k) (docs.eraseIdx k) (dists.eraseIdx k)
            (by omega) (by omega) (by omega)]
      have tk1 : (ids.take k).length = k := by simp [List.length_take]; omega
      have tk2 : (docs.take k).length = k := by simp [List.length_take]; omega
      have tk3 : (dists.take k).length = k := by simp [List.length_take]; omega
      rw [List.eraseIdx_eq_take_drop_succ ids k, List.eraseIdx_eq_take_drop_succ docs k,
          List.eraseIdx_eq_take_drop_succ dists k]
      rw [List.take_left' tk1, List.take_left' tk2, List.take_left' tk3,
          List.drop_left' tk1, List.drop_left' tk2, List.drop_left' tk3]
      rw [hids, hdocs, hdists]
      rw [filterAligned_snoc t _ _ _ _ htlen, filterAligned_snoc t _ _ _ _ htlen2]
      rw [List.filter_append]
      simp [List.filter_cons, hle]
    · rw [if_neg hgt]
      have hle : dists[k] ≤ t := by
        have := not_lt.mp hgt
        simpa [List.get_eq_getElem] using this
      rw [ih ids docs dists h1 h2 (Nat.le_of_lt hk)]
      rw [hids, hdocs, hdists]
      rw [filterAligned_snoc t _ _ _ _ htlen, filterAligned_snoc t _ _ _ _ htlen2]
      rw [List.drop_eq_getElem_cons hk, List.drop_eq_getElem_cons hkdoc,
          List.drop_eq_getElem_cons hkd]
      rw [List.filter_append]
      simp [List.filter_cons, hle]

/-- `filter_query_result` on one query's triple of equal-length parallel
lists is the simultaneous filter by `distance ≤ threshold`. -/
theorem filterTriple_spec (t : ℚ) (ids docs : List String) (dists : List ℚ)
    (h1 : docs.length = ids.length) (h2 : dists.length = ids.length) :
    filterTriple t ids docs dists =
      (filterAligned t ids dists, filterAligned t docs dists,
       dists.filter (fun d => decide (d ≤ t))) := by
  unfold filterTriple
  rw [popPass_spec t ids.length ids docs dists h1 h2 Nat.le.refl]
  have e1 : ids.take ids.length = ids := List.take_length ids
  have e2 : docs.take ids.length = docs := by rw [← h1, List.take_length]
  have e3 : dists.take ids.length = dists := by rw [← h2, List.take_length]
  have d1 : ids.drop ids.length = [] := List.drop_length ids
  have d2 : docs.drop ids.length = [] := by rw [← h1, List.drop_length]
  have d3 : dists.drop ids.length = [] := by rw [← h2, List.drop_length]
  rw [e1, e2, e3, d1, d2, d3]
  simp

/-- A query result whose three outer lists have equal length and whose three
per-query inner lists have equal length — the shape Chroma's `query` always
returns. -/
abbrev alignedQR (qr : QueryResult) : Prop :=
  qr.documents.length = qr.ids.length ∧ qr.distances.length = qr.ids.length ∧
    ∀ p ∈ zip3 qr.ids qr.documents qr.distances,
      p.2.1.length = p.1.length ∧ p.2.2.length = p.1.length

theorem mapFilterTriple_eq (t : ℚ) :
    ∀ (is ds : List (List String)) (xs : List (List ℚ)),
      ds.length = is.length → xs.length = is.length →
      (∀ p ∈ zip3 is ds xs, p.2.1.length = p.1.length ∧ p.2.2.length = p.1.length) →
      ((zip3 is ds xs).map (fun p => filterTriple t p.1 p.2.1 p.2.2)).map (fun p => p.1) =
          List.zipWith (fun a b => filterAligned t a b) is xs ∧
        ((zip3 is ds xs).map (fun p => filterTriple t p.1 p.2.1 p.2.2)).map (fun p => p.2.1) =
          List.zipWith (fun a b => filterAligned t a b) ds xs ∧
        ((zip3 is ds xs).map (fun p => filterTriple t p.1 p.2.1 p.2.2)).map (fun p => p.2.2) =
          xs.map (fun l => l.filter (fun d => decide (d ≤ t))) := by
  intro is
  induction is with
  | nil =>
    intro ds xs hd hx hp
    rw [List.length_eq_zero.mp hd, List.length_eq_zero.mp hx]
    simp [zip3]
  | cons i is ih =>
    intro ds xs hd hx hp
    cases ds with
    | nil => simp at hd
    | cons d ds =>
      cases xs with
      | nil => simp at hx
      | cons x xs =>
        simp only [List.length_cons, Nat.succ.injEq] at hd hx
        have hz : zip3 (i :: is) (d :: ds) (x :: xs) = (i, d, x) :: zip3 is ds xs := rfl
        have hhead := hp (i, d, x) (by rw [hz]; exact List.mem_cons_self _ _)
        have htail : ∀ p ∈ zip3 is ds xs, p.2.1.length = p.1.length ∧ p.2.2.length = p.1.length := by
          intro p hmem
          exact hp p (by rw [hz]; exact List.mem_cons_of_mem _ hmem)
        obtain ⟨e1, e2, e3⟩ := ih ds xs hd hx htail
        rw [hz]
        simp only [List.map_cons, List.zipWith_cons_cons, e1, e2, e3]
        rw [filterTriple_spec t i d x hhead.1 hhead.2]
        simp

/-- `filter_query_result` on an aligned query result replaces each per-query
triple by its simultaneous filter. -/
theorem filter_qr_eq (qr : QueryResult) (t : ℚ) (h : alignedQR qr) :
    filter_query_result qr t =
      { ids := List.zipWith (fun a b => filterAligned t a b) qr.ids qr.distances,
        documents := List.zipWith (fun a b => filterAligned t a b) qr.documents qr.distances,
        distances := qr.distances.map (fun l => l.filter (fun d => decide (d ≤ t))) } := by
  obtain ⟨is, ds, xs⟩ := qr
  obtain ⟨hd, hx, hp⟩ := h
  simp only at hd hx hp
  have hlen : (zip3 is ds xs).length = is.length := by
    simp [zip3, List.length_zip]; omega
  obtain ⟨e1, e2, e3⟩ := mapFilterTriple_eq t is ds xs hd hx hp
  unfold filter_query_result
  simp only
  rw [List.length_map, hlen]
  rw [e1, e2, e3]
  have d1 : is.drop is.length = [] := List.drop_length is
  have d2 : ds.drop is.length = [] := by rw [← hd, List.drop_length]
  have d3 : xs.drop is.length = [] := by rw [← hx, List.drop_length]
  rw [d1, d2, d3]
  simp


theorem zip3_cons {α β γ : Type} (a : α) (b : β) (c : γ)
    (as : List α) (bs : List β) (cs : List γ) :
    zip3 (a :: as) (b :: bs) (c :: cs) = (a, b, c) :: zip3 as bs cs := rfl

theorem filter_le_idem (t : ℚ) (l : List ℚ) :
    (l.filter (fun d => decide (d ≤ t))).filter (fun d => decide (d ≤ t)) =
      l.filter (fun d => decide (d ≤ t)) := by
  apply List.filter_eq_self.mpr
  intro a ha
  exact (List.mem_filter.mp ha).2

theorem zipWith_filterAligned_idem {α : Type} (t : ℚ) :
    ∀ (as : List (List α)) (xs : List (List ℚ)),
      List.zipWith (fun a b => filterAligned t a b)
          (List.zipWith (fun a b => filterAligned t a b) as xs)
          (xs.map (fun l => l.filter (fun d => decide (d ≤ t)))) =
        List.zipWith (fun a b => filterAligned t a b) as xs := by
  intro as
  induction as with
  | nil => intro xs; simp
  | cons a as ih =>
    intro xs
    cases xs with
    | nil => simp
    | cons x xs =>
      simp only [List.zipWith_cons_cons, List.map_cons]
      rw [filterAligned_filterAligned t a x, ih xs]

theorem zip3_filter_pointwise (t : ℚ) :
    ∀ (is ds : List (List String)) (xs : List (List ℚ)),
      (∀ p ∈ zip3 is ds xs, p.2.1.length = p.1.length ∧ p.2.2.length = p.1.length) →
      ∀ p ∈ zip3 (List.zipWith (fun a b => filterAligned t a b) is xs)
          (List.zipWith (fun a b => filterAligned t a b) ds xs)
          (xs.map (fun l => l.filter (fun d => decide (d ≤ t)))),
        p.2.1.length = p.1.length ∧ p.2.2.length = p.1.length := by
  intro is
  induction is with
  | nil => intro ds xs hp p hmem; simp [zip3] at hmem
  | cons i is ih =>
    intro ds xs hp p hmem
    cases ds with
    | nil => simp [zip3] at hmem
    | cons d ds =>
      cases xs with
      | nil => simp [zip3] at hmem
      | cons x xs =>
        have hhead := hp (i, d, x) (by rw [zip3_cons]; exact List.mem_cons_self _ _)
        have hh1 : d.length = i.length := hhead.1
        have hh2 : x.length = i.length := hhead.2
        simp only [List.zipWith_cons_cons, List.map_cons, zip3_cons] at hmem
        rcases List.mem_cons.mp hmem with hcase | hcase
        · subst hcase
          refine ⟨?_, ?_⟩
          · show (filterAligned t d x).length = (filterAligned t i x).length
            rw [length_filterAligned t d x (hh1.trans hh2.symm),
                length_filterAligned t i x hh2.symm]
          · show (x.filter (fun v => decide (v ≤ t))).length = (filterAligned t i x).length
            rw [length_filterAligned t i x hh2.symm]
        · exact ih ds xs
            (fun q hq => hp q (by rw [zip3_cons]; exact List.mem_cons_of_mem _ hq)) p hcase

/-- Filtering preserves alignment of the query result. -/
theorem alignedQR_filter (qr : QueryResult) (t : ℚ) (h : alignedQR qr) :
    alignedQR (filter_query_result qr t) := by
  rw [filter_qr_eq qr t h]
  obtain ⟨is, ds, xs⟩ := qr
  obtain ⟨hd, hx, hp⟩ := h
  simp only at hd hx hp
  refine ⟨by simp [List.length_zipWith]; omega, by simp [List.length_zipWith]; omega, ?_⟩
  exact zip3_filter_pointwise t is ds xs hp

/-- C1: On a query result made of three parallel equal-length lists per
query, `filter_query_result` with threshold `t` (default `0.25`) removes from
all three lists exactly the entries at indices whose distance is strictly
greater than `t`, preserving the relative order and values of the retained
entries; the three lists remain equal-length and aligned afterwards. -/
theorem filter_query_result_spec (qr : QueryResult) (t : ℚ) (h : alignedQR qr) :
    filter_query_result qr t =
      { ids := List.zipWith (fun a b => filterAligned t a b) qr.ids qr.distances,
        documents := List.zipWith (fun a b => filterAligned t a b) qr.documents qr.distances,
        distances := qr.distances.map (fun l => l.filter (fun d => decide (d ≤ t))) } ∧
    alignedQR (filter_query_result qr t) ∧
    distance_threshold_default = 1 / 4 :=
  ⟨filter_qr_eq qr t h, alignedQR_filter qr t h, by norm_num [distance_threshold_default]⟩

/-- Witness for C1 at a concrete aligned query result with distances
`[1/10, 1/2, 1/5]` and threshold `1/4`. -/
theorem filter_query_result_spec_witness :
    alignedQR ⟨[["a", "b", "c"]], [["da", "db", "dc"]], [[1/10, 1/2, 1/5]]⟩ ∧
    filter_query_result ⟨[["a", "b", "c"]], [["da", "db", "dc"]], [[1/10, 1/2, 1/5]]⟩ (1/4) =
      { ids := List.zipWith (fun a b => filterAligned (1/4) a b)
          [["a", "b", "c"]] [[1/10, 1/2, 1/5]],
        documents := List.zipWith (fun a b => filterAligned (1/4) a b)
          [["da", "db", "dc"]] [[1/10, 1/2, 1/5]],
        distances := [[(1 : ℚ)/10, 1/2, 1/5]].map
          (fun l => l.filter (fun d => decide (d ≤ (1 : ℚ)/4))) } :=
  ⟨by decide,
   (filter_query_result_spec ⟨[["a", "b", "c"]], [["da", "db", "dc"]], [[1/10, 1/2, 1/5]]⟩
      (1/4) (by decide)).1⟩

/-- C9: `filter_query_result` is idempotent — re-filtering an
already-filtered aligned query result with the same threshold changes
nothing, since every retained distance is at most the threshold. -/
theorem filter_query_result_idem (qr : QueryResult) (t : ℚ) (h : alignedQR qr) :
    filter_query_result (filter_query_result qr t) t = filter_query_result qr t := by
  rw [filter_qr_eq (filter_query_result qr t) t (alignedQR_filter qr t h),
      filter_qr_eq qr t h]
  obtain ⟨is, ds, xs⟩ := qr
  simp only
  congr 1
  · exact zipWith_filterAligned_idem t is xs
  · exact zipWith_filterAligned_idem t ds xs
  · rw [List.map_map]
    exact List.map_congr_left (fun l _ => filter_le_idem t l)

/-- Witness for C9 at a concrete aligned query result and threshold `1/4`. -/
theorem filter_query_result_idem_witness :
    alignedQR ⟨[["x", "y"]], [["dx", "dy"]], [[3/10, 1/5]]⟩ ∧
    filter_query_result
        (filter_query_result ⟨[["x", "y"]], [["dx", "dy"]], [[3/10, 1/5]]⟩ (1/4)) (1/4) =
      filter_query_result ⟨[["x", "y"]], [["dx", "dy"]], [[3/10, 1/5]]⟩ (1/4) :=
  ⟨by decide,
   filter_query_result_idem ⟨[["x", "y"]], [["dx", "dy"]], [[3/10, 1/5]]⟩ (1/4) (by decide)⟩

/-- A loop that appends one element per input to an accumulator list is a
`map`. -/
theorem foldl_push_map {α β : Type} (f : α → β) :
    ∀ (l : List α) (acc : List β),
      l.foldl (fun r a => r ++ [f a]) acc = acc ++ l.map f := by
  intro l
  induction l with
  | nil => intro acc; simp
  | cons a l ih => intro acc; simp [List.foldl_cons, ih]

theorem assess_claims_eq_map (oracle : ChatOracle) (claims : List String) :
    assess_claims oracle claims =
      claims.map (fun claim => pyStrip (oracle (build_prompt claim))) := by
  unfold assess_claims
  rw [foldl_push_map]
  simp

theorem hallucinate_evidence_eq_map (oracle : ChatOracle) (claims : List String) :
    hallucinate_evidence oracle claims =
      claims.map (fun claim => oracle (build_hallucination_prompt claim)) := by
  unfold hallucinate_evidence
  rw [foldl_push_map]
  simp

theorem assess_claims_with_context_eq_map (oracle : ChatOracle) (claims : List String)
    (contexts : List (List String)) :
    assess_claims_with_context oracle claims contexts =
      (claims.zip contexts).map
        (fun p => if p.2.length = 0 then "NEE"
                  else pyStrip (oracle (build_prompt_with_context p.1 p.2))) := by
  unfold assess_claims_with_context
  rw [show (fun (responses : List String) (p : String × List String) =>
        if p.2.length = 0 then responses ++ ["NEE"]
        else responses ++ [pyStrip (oracle (build_prompt_with_context p.1 p.2))]) =
      (fun responses p => responses ++
        [if p.2.length = 0 then "NEE"
         else pyStrip (oracle (build_prompt_with_context p.1 p.2))]) from ?_]
  · rw [foldl_push_map]
    simp
  · funext responses p
    by_cases hp : p.2.length = 0 <;> simp [hp]

/-- C7: `assess_claims` (with the chat-completion API as an oracle from
prompt to response text) returns exactly one response per claim, in input
order: the oracle's content for `build_prompt` of that claim, with leading
and trailing `'.'`, `','` and `' '` characters stripped. -/
theorem assess_claims_spec (oracle : ChatOracle) (claims : List String) :
    assess_claims oracle claims =
      claims.map (fun claim => pyStrip (oracle (build_prompt claim))) ∧
    (assess_claims oracle claims).length = claims.length := by
  have hmap := assess_claims_eq_map oracle claims
  exact ⟨hmap, by rw [hmap]; simp⟩

/-- C8: on equal-length `claims` and `contexts`, `assess_claims_with_context`
returns exactly one response per claim in input order, and a claim whose
context list is empty gets the response `"NEE"` directly (the oracle is not
consulted for it: the value is independent of the oracle). -/
theorem assess_claims_with_context_spec (oracle : ChatOracle) (claims : List String)
    (contexts : List (List String)) (hlen : claims.length = contexts.length) :
    (assess_claims_with_context oracle claims contexts).length = claims.length ∧
    assess_claims_with_context oracle claims contexts =
      (claims.zip contexts).map
        (fun p => if p.2.length = 0 then "NEE"
                  else pyStrip (oracle (build_prompt_with_context p.1 p.2))) ∧
    ∀ k, k < claims.length → contexts.getD k [] = [] →
      (assess_claims_with_context oracle claims contexts).getD k "" = "NEE" := by
  have hmap := assess_claims_with_context_eq_map oracle claims contexts
  refine ⟨by rw [hmap]; simp [List.length_zip]; omega, hmap, ?_⟩
  intro k hk hctx
  have hk2 : k < contexts.length := by omega
  have hkz : k < (claims.zip contexts).length := by simp [List.length_zip]; omega
  have hctxelem : contexts[k] = [] := by
    rw [List.getD_eq_getElem?_getD, List.getElem?_eq_getElem hk2] at hctx
    simpa using hctx
  rw [hmap, List.getD_eq_getElem?_getD, List.getElem?_map, List.getElem?_eq_getElem hkz]
  simp [List.getElem_zip, hctxelem]

/-- Witness for C8: with an oracle always answering `"True"`, the first
claim (whose context is empty) is answered `"NEE"`. -/
theorem assess_claims_with_context_spec_witness :
    (["c1", "c2"] : List String).length = ([[], ["e"]] : List (List String)).length ∧
    (0 : Nat) < (["c1", "c2"] : List String).length ∧
    ([[], ["e"]] : List (List String)).getD 0 [] = [] ∧
    (assess_claims_with_context (fun _ => "True") ["c1", "c2"] [[], ["e"]]).getD 0 "" = "NEE" :=
  ⟨by decide, by decide, by decide,
   (assess_claims_with_context_spec (fun _ => "True") ["c1", "c2"] [[], ["e"]]
      (by decide)).2.2 0 (by decide) (by decide)⟩

/-- C5: in the HyDE pipeline, `hallucinate_evidence` returns exactly one
model-generated document per input claim, in input order; the subsequent
corpus query is issued with these generated documents as query texts, and its
result is filtered by `filter_query_result` under the same default distance
threshold (`0.25`) as the direct-claim query. -/
theorem hyde_pipeline_spec (chatO : ChatOracle) (queryO : QueryOracle) (claims : List String) :
    hallucinate_evidence chatO claims =
      claims.map (fun claim => chatO (build_hallucination_prompt claim)) ∧
    (hallucinate_evidence chatO claims).length = claims.length ∧
    filtered_hallucinated_query_result queryO chatO claims =
      filter_query_result
        (queryO (claims.map (fun claim => chatO (build_hallucination_prompt claim))))
        distance_threshold_default ∧
    filtered_claim_query_result queryO claims =
      filter_query_result (queryO claims) distance_threshold_default ∧
    distance_threshold_default = 1 / 4 := by
  have hmap := hallucinate_evidence_eq_map chatO claims
  refine ⟨hmap, by rw [hmap]; simp, ?_, rfl, by norm_num [distance_threshold_default]⟩
  unfold filtered_hallucinated_query_result hallucinated_query_result
  rw [hmap]

/-- The label of the first sentence-annotation of the first entry of an
evidence dictionary, when both exist. -/
def firstLabel (e : Evidence) : Option String :=
  match e with
  | (_, a :: _) :: _ => some a.label
  | _ => none

/-- Specification-side groundtruth for one evidence dictionary, following the
claim's wording: `'NEE'` exactly when the dictionary is empty, `'True'`
exactly when it is non-empty and the label of the first sentence-annotation
of its first entry is `'SUPPORT'`, `'False'` otherwise. -/
def expected_groundtruth (e : Evidence) : String :=
  if e = [] then "NEE"
  else if firstLabel e = some "SUPPORT" then "True" else "False"

/-- An evidence dictionary on which `get_groundtruth` cannot raise: either
empty, or with a non-empty annotation list on its first entry. -/
def wfEvidence (e : Evidence) : Bool :=
  match e with
  | [] => true
  | (_, anns) :: _ => !anns.isEmpty

theorem groundtruthOf_eq_expected (e : Evidence) (h : wfEvidence e = true) :
    groundtruthOf e = some (expected_groundtruth e) := by
  match e with
  | [] => rfl
  | (k, anns) :: rest =>
    match anns with
    | [] => simp [wfEvidence] at h
    | a :: anns =>
      by_cases hl : a.label = "SUPPORT"
      · simp [groundtruthOf, expected_groundtruth, firstLabel, hl]
      · simp [groundtruthOf, expected_groundtruth, firstLabel, hl]

/-- C3 counterexample: on a non-empty evidence dictionary whose first entry
has an empty annotation list, `get_groundtruth` raises (Python `IndexError`
on `list(e.values())[0][0]`) instead of returning a label list. -/
theorem get_groundtruth_err_on_empty_entry :
    get_groundtruth [[("31715818", ([] : List EvidenceRecord))]] = none := rfl

/-- C3 amended: on every list of evidence dictionaries in which each
non-empty dictionary's first entry carries at least one sentence-annotation,
`get_groundtruth` returns a list of the same length whose element for `e` is
`'NEE'` exactly when `e` is empty, `'True'` exactly when `e` is non-empty
with first annotation label `'SUPPORT'`, and `'False'` otherwise. -/
theorem get_groundtruth_spec (evidence : List Evidence)
    (hwf : ∀ e ∈ evidence, wfEvidence e = true) :
    get_groundtruth evidence = some (evidence.map expected_groundtruth) ∧
    (evidence.map expected_groundtruth).length = evidence.length ∧
    (∀ e : Evidence, (expected_groundtruth e = "NEE" ↔ e = [])) ∧
    (∀ e : Evidence, e ≠ [] →
      (expected_groundtruth e = "True" ↔ firstLabel e = some "SUPPORT")) := by
  refine ⟨?_, by simp, ?_, ?_⟩
  · induction evidence with
    | nil => rfl
    | cons e rest ih =>
      have he := hwf e (List.mem_cons_self _ _)
      have hrest := ih (fun x hx => hwf x (List.mem_cons_of_mem _ hx))
      rw [List.map_cons, get_groundtruth, groundtruthOf_eq_expected e he, hrest]
  · intro e
    by_cases he : e = []
    · simp [expected_groundtruth, he]
    · by_cases hl : firstLabel e = some "SUPPORT" <;>
        simp [expected_groundtruth, he, hl]
  · intro e he
    by_cases hl : firstLabel e = some "SUPPORT" <;>
      simp [expected_groundtruth, he, hl]

/-- Witness for C3 (amended) on three evidence dictionaries shaped like the
dataset's first rows: empty, supported, contradicted. -/
theorem get_groundtruth_spec_witness :
    (∀ e ∈ ([[], [("14717500", [⟨[2, 5], "SUPPORT"⟩])],
             [("13734012", [⟨[4], "CONTRADICT"⟩])]] : List Evidence),
      wfEvidence e = true) ∧
    get_groundtruth
        [[], [("14717500", [⟨[2, 5], "SUPPORT"⟩])], [("13734012", [⟨[4], "CONTRADICT"⟩])]] =
      some (([[], [("14717500", [⟨[2, 5], "SUPPORT"⟩])],
              [("13734012", [⟨[4], "CONTRADICT"⟩])]] : List Evidence).map expected_groundtruth) :=
  ⟨by decide,
   (get_groundtruth_spec
      [[], [("14717500", [⟨[2, 5], "SUPPORT"⟩])], [("13734012", [⟨[4], "CONTRADICT"⟩])]]
      (by decide)).1⟩

/-- The three legal labels: the keys of the confusion dictionary. -/
def label_values : List String := ["True", "False", "NEE"]

/-- A confusion-dictionary row with the three fixed keys and symbolic
counts. -/
def mkRow (a b c : Nat) : List (String × Nat) := [("True", a), ("False", b), ("NEE", c)]

/-- A confusion dictionary with the three fixed rows and symbolic counts. -/
def mkTable (tt tf tn ft ff fn nt nf nn : Nat) : Table :=
  [("True", mkRow tt tf tn), ("False", mkRow ft ff fn), ("NEE", mkRow nt nf nn)]

theorem confusion_init_eq : confusion_init = mkTable 0 0 0 0 0 0 0 0 0 := rfl

/-- The number of positions of `zs` holding exactly the pair `(i, g)`. -/
def cnt (i g : String) (zs : List (String × String)) : Nat :=
  zs.countP (fun p => p.1 == i && p.2 == g)

theorem tableIncr_TT (a b c d e f g h i : Nat) :
    tableIncr (mkTable a b c d e f g h i) "True" "True" =
      some (mkTable (a + 1) b c d e f g h i) := by
  simp [tableIncr, dictIncr, mkTable, mkRow]

theorem tableIncr_TF (a b c d e f g h i : Nat) :
    tableIncr (mkTable a b c d e f g h i) "True" "False" =
      some (mkTable a (b + 1) c d e f g h i) := by
  simp [tableIncr, dictIncr, mkTable, mkRow]

theorem tableIncr_TN (a b c d e f g h i : Nat) :
    tableIncr (mkTable a b c d e f g h i) "True" "NEE" =
      some (mkTable a b (c + 1) d e f g h i) := by
  simp [tableIncr, dictIncr, mkTable, mkRow]

theorem tableIncr_FT (a b c d e f g h i : Nat) :
    tableIncr (mkTable a b c d e f g h i) "False" "True" =
      some (mkTable a b c (d + 1) e f g h i) := by
  simp [tableIncr, dictIncr, mkTable, mkRow]

theorem tableIncr_FF (a b c d e f g h i : Nat) :
    tableIncr (mkTable a b c d e f g h i) "False" "False" =
      some (mkTable a b c d (e + 1) f g h i) := by
  simp [tableIncr, dictIncr, mkTable, mkRow]

theorem tableIncr_FN (a b c d e f g h i : Nat) :
    tableIncr (mkTable a b c d e f g h i) "False" "NEE" =
      some (mkTable a b c d e (f + 1) g h i) := by
  simp [tableIncr, dictIncr, mkTable, mkRow]

theorem tableIncr_NT (a b c d e f g h i : Nat) :
    tableIncr (mkTable a b c d e f g h i) "NEE" "True" =
      some (mkTable a b c d e f (g + 1) h i) := by
  simp [tableIncr, dictIncr, mkTable, mkRow]

theorem tableIncr_NF (a b c d e f g h i : Nat) :
    tableIncr (mkTable a b c d e f g h i) "NEE" "False" =
      some (mkTable a b c d e f g (h + 1) i) := by
  simp [tableIncr, dictIncr, mkTable, mkRow]

theorem tableIncr_NN (a b c d e f g h i : Nat) :
    tableIncr (mkTable a b c d e f g h i) "NEE" "NEE" =
      some (mkTable a b c d e f g h (i + 1)) := by
  simp [tableIncr, dictIncr, mkTable, mkRow]

/-- The tally loop on the 3x3 table adds, to each cell, the number of pairs
hitting that cell, provided every pair carries legal labels. -/
theorem cmFold_ok :
    ∀ (zs : List (String × String)) (a b c d e f g h i : Nat),
      (∀ p ∈ zs, p.1 ∈ label_values ∧ p.2 ∈ label_values) →
      cmFold zs (mkTable a b c d e f g h i) =
        .ok (mkTable
          (a + cnt "True" "True" zs) (b + cnt "True" "False" zs) (c + cnt "True" "NEE" zs)
          (d + cnt "False" "True" zs) (e + cnt "False" "False" zs) (f + cnt "False" "NEE" zs)
          (g + cnt "NEE" "True" zs) (h + cnt "NEE" "False" zs) (i + cnt "NEE" "NEE" zs)) := by
  intro zs
  induction zs with
  | nil => intro a b c d e f g h i hmem; simp [cmFold, cnt]
  | cons p rest ih =>
    intro a b c d e f g h i hmem
    obtain ⟨x, y⟩ := p
    have hx := (hmem (x, y) (List.mem_cons_self _ _)).1
    have hy := (hmem (x, y) (List.mem_cons_self _ _)).2
    have hrest : ∀ q ∈ rest, q.1 ∈ label_values ∧ q.2 ∈ label_values :=
      fun q hq => hmem q (List.mem_cons_of_mem _ hq)
    simp only [label_values, List.mem_cons, List.not_mem_nil, or_false] at hx hy
    rcases hx with rfl | rfl | rfl <;> rcases hy with rfl | rfl | rfl <;>
      simp only [cmFold, tableIncr_TT, tableIncr_TF, tableIncr_TN, tableIncr_FT,
        tableIncr_FF, tableIncr_FN, tableIncr_NT, tableIncr_NF, tableIncr_NN] <;>
      rw [ih _ _ _ _ _ _ _ _ _ hrest] <;>
      simp [cnt, List.countP_cons, mkTable, mkRow] <;> omega

theorem tableIncr_none (a b c d e f g h i : Nat) (x y : String)
    (hbad : x ∉ label_values ∨ y ∉ label_values) :
    tableIncr (mkTable a b c d e f g h i) x y = none := by
  rcases hbad with hx | hy
  · simp only [label_values, List.mem_cons, List.not_mem_nil, or_false, not_or] at hx
    obtain ⟨hx1, hx2, hx3⟩ := hx
    have hx1' : ¬ ("True" = x) := fun hh => hx1 hh.symm
    have hx2' : ¬ ("False" = x) := fun hh => hx2 hh.symm
    have hx3' : ¬ ("NEE" = x) := fun hh => hx3 hh.symm
    simp [tableIncr, mkTable, mkRow, hx1', hx2', hx3']
  · simp only [label_values, List.mem_cons, List.not_mem_nil, or_false, not_or] at hy
    obtain ⟨hy1, hy2, hy3⟩ := hy
    have hy1' : ¬ ("True" = y) := fun hh => hy1 hh.symm
    have hy2' : ¬ ("False" = y) := fun hh => hy2 hh.symm
    have hy3' : ¬ ("NEE" = y) := fun hh => hy3 hh.symm
    by_cases hx1 : "True" = x
    · subst hx1
      simp [tableIncr, dictIncr, mkTable, mkRow, hy1', hy2', hy3']
    · by_cases hx2 : "False" = x
      · subst hx2
        simp [tableIncr, dictIncr, mkTable, mkRow, hx1, hy1', hy2', hy3']
      · by_cases hx3 : "NEE" = x
        · subst hx3
          simp [tableIncr, dictIncr, mkTable, mkRow, hx1, hx2, hy1', hy2', hy3']
        · simp [tableIncr, mkTable, mkRow, hx1, hx2, hx3]

/-- The tally loop raises `KeyError` whenever some pair carries a label
outside the three keys. -/
theorem cmFold_err :
    ∀ (zs : List (String × String)) (a b c d e f g h i : Nat),
      (∃ p ∈ zs, p.1 ∉ label_values ∨ p.2 ∉ label_values) →
      cmFold zs (mkTable a b c d e f g h i) = .error .keyError := by
  intro zs
  induction zs with
  | nil => intro a b c d e f g h i hbad; simp at hbad
  | cons p rest ih =>
    intro a b c d e f g h i hbad
    obtain ⟨x, y⟩ := p
    by_cases hgood : x ∈ label_values ∧ y ∈ label_values
    · have hrest : ∃ q ∈ rest, q.1 ∉ label_values ∨ q.2 ∉ label_values := by
        obtain ⟨q, hq, hqbad⟩ := hbad
        rcases List.mem_cons.mp hq with rfl | hq2
        · exact absurd hgood (by tauto)
        · exact ⟨q, hq2, hqbad⟩
      obtain ⟨hx, hy⟩ := hgood
      simp only [label_values, List.mem_cons, List.not_mem_nil, or_false] at hx hy
      rcases hx with rfl | rfl | rfl <;> rcases hy with rfl | rfl | rfl <;>
        simp only [cmFold, tableIncr_TT, tableIncr_TF, tableIncr_TN, tableIncr_FT,
          tableIncr_FF, tableIncr_FN, tableIncr_NT, tableIncr_NF, tableIncr_NN] <;>
        exact ih _ _ _ _ _ _ _ _ _ hrest
    · have hbad2 : x ∉ label_values ∨ y ∉ label_values := by tauto
      simp only [cmFold, tableIncr_none a b c d e f g h i x y hbad2]

/-- Reading `confusion[i][g]` from an inner dictionary (`none` = `KeyError`). -/
def dictGet (row : List (String × Nat)) (g : String) : Option Nat :=
  match row with
  | [] => none
  | (k, v) :: rest => if k = g then some v else dictGet rest g

/-- Reading `confusion[i][g]` from the confusion dictionary. -/
def tableGet (tab : Table) (i g : String) : Option Nat :=
  match tab with
  | [] => none
  | (k, row) :: rest => if k = i then dictGet row g else tableGet rest i g

/-- The sum of all count entries of the confusion dictionary. -/
def tableSum (tab : Table) : Nat :=
  (tab.map (fun r => (r.2.map (fun q => q.2)).sum)).sum

/-- Pairs of legal labels land in exactly one of the nine cells, so the nine
per-cell counts sum to the number of pairs. -/
theorem cnt_sum_eq_length :
    ∀ zs : List (String × String),
      (∀ p ∈ zs, p.1 ∈ label_values ∧ p.2 ∈ label_values) →
      cnt "True" "True" zs + cnt "True" "False" zs + cnt "True" "NEE" zs +
        cnt "False" "True" zs + cnt "False" "False" zs + cnt "False" "NEE" zs +
        cnt "NEE" "True" zs + cnt "NEE" "False" zs + cnt "NEE" "NEE" zs = zs.length := by
  intro zs
  induction zs with
  | nil => intro hmem; simp [cnt]
  | cons p rest ih =>
    intro hmem
    obtain ⟨x, y⟩ := p
    have hx := (hmem (x, y) (List.mem_cons_self _ _)).1
    have hy := (hmem (x, y) (List.mem_cons_self _ _)).2
    have hrest := ih (fun q hq => hmem q (List.mem_cons_of_mem _ hq))
    simp only [label_values, List.mem_cons, List.not_mem_nil, or_false] at hx hy
    rcases hx with rfl | rfl | rfl <;> rcases hy with rfl | rfl | rfl <;>
      simp only [cnt, List.countP_cons] at * <;> simp <;> omega

theorem exists_zip_left {α β : Type} :
    ∀ (l₁ : List α) (l₂ : List β), l₁.length = l₂.length →
      ∀ x ∈ l₁, ∃ y, (x, y) ∈ l₁.zip l₂ := by
  intro l₁
  induction l₁ with
  | nil => intro l₂ hlen x hx; simp at hx
  | cons a l₁ ih =>
    intro l₂ hlen x hx
    cases l₂ with
    | nil => simp at hlen
    | cons b l₂ =>
      simp only [List.length_cons, Nat.succ.injEq] at hlen
      rcases List.mem_cons.mp hx with rfl | hx2
      · exact ⟨b, List.mem_cons_self _ _⟩
      · obtain ⟨y, hy⟩ := ih l₂ hlen x hx2
        exact ⟨y, List.mem_cons_of_mem _ hy⟩

theorem exists_zip_right {α β : Type} :
    ∀ (l₁ : List α) (l₂ : List β), l₁.length = l₂.length →
      ∀ y ∈ l₂, ∃ x, (x, y) ∈ l₁.zip l₂ := by
  intro l₁
  induction l₁ with
  | nil => intro l₂ hlen y hy
           cases l₂ with
           | nil => simp at hy
           | cons b l₂ => simp at hlen
  | cons a l₁ ih =>
    intro l₂ hlen y hy
    cases l₂ with
    | nil => simp at hy
    | cons b l₂ =>
      simp only [List.length_cons, Nat.succ.injEq] at hlen
      rcases List.mem_cons.mp hy with rfl | hy2
      · exact ⟨a, List.mem_cons_self _ _⟩
      · obtain ⟨x, hx⟩ := ih l₂ hlen y hy2
        exact ⟨x, List.mem_cons_of_mem _ hx⟩

/-- `confusion_matrix` on equal-length lists of legal labels returns the
table whose `(i, g)` entry counts the positions holding `(i, g)`, and whose
nine entries sum to the common length. -/
theorem confusion_matrix_ok (inferred groundtruth : List String)
    (hlen : inferred.length = groundtruth.length)
    (hinf : ∀ x ∈ inferred, x ∈ label_values)
    (hgt : ∀ x ∈ groundtruth, x ∈ label_values) :
    ∃ tab, confusion_matrix inferred groundtruth = .ok tab ∧
      (∀ i g, i ∈ label_values → g ∈ label_values →
        tableGet tab i g = some (cnt i g (inferred.zip groundtruth))) ∧
      tableSum tab = inferred.length := by
  have hmem : ∀ p ∈ inferred.zip groundtruth, p.1 ∈ label_values ∧ p.2 ∈ label_values :=
    fun p hp => ⟨hinf p.1 (List.of_mem_zip hp).1, hgt p.2 (List.of_mem_zip hp).2⟩
  have hfold := cmFold_ok (inferred.zip groundtruth) 0 0 0 0 0 0 0 0 0 hmem
  simp only [Nat.zero_add] at hfold
  refine ⟨mkTable
      (cnt "True" "True" (inferred.zip groundtruth)) (cnt "True" "False" (inferred.zip groundtruth))
      (cnt "True" "NEE" (inferred.zip groundtruth)) (cnt "False" "True" (inferred.zip groundtruth))
      (cnt "False" "False" (inferred.zip groundtruth)) (cnt "False" "NEE" (inferred.zip groundtruth))
      (cnt "NEE" "True" (inferred.zip groundtruth)) (cnt "NEE" "False" (inferred.zip groundtruth))
      (cnt "NEE" "NEE" (inferred.zip groundtruth)), ?_, ?_, ?_⟩
  · rw [confusion_matrix, if_pos hlen, confusion_init_eq, hfold]
  · intro i g hi hg
    simp only [label_values, List.mem_cons, List.not_mem_nil, or_false] at hi hg
    rcases hi with rfl | rfl | rfl <;> rcases hg with rfl | rfl | rfl <;>
      simp [tableGet, dictGet, mkTable, mkRow]
  · have hsum := cnt_sum_eq_length (inferred.zip groundtruth) hmem
    have hzlen : (inferred.zip groundtruth).length = inferred.length := by
      simp [List.length_zip]; omega
    simp only [tableSum, mkTable, mkRow, List.map_cons, List.map_nil, List.sum_cons,
      List.sum_nil]
    omega

/-- C2: for equal-length lists of labels drawn from
`{'True', 'False', 'NEE'}`, `confusion_matrix` returns the fixed 3x3 count
table whose entry at row `i`, column `g` is the number of positions holding
inferred label `i` and groundtruth label `g`, the nine entries summing to the
common length. -/
theorem confusion_matrix_spec (inferred groundtruth : List String)
    (hlen : inferred.length = groundtruth.length)
    (hinf : ∀ x ∈ inferred, x ∈ label_values)
    (hgt : ∀ x ∈ groundtruth, x ∈ label_values) :
    ∃ tab, confusion_matrix inferred groundtruth = .ok tab ∧
      (∀ i g, i ∈ label_values → g ∈ label_values →
        tableGet tab i g = some (cnt i g (inferred.zip groundtruth))) ∧
      tableSum tab = inferred.length :=
  confusion_matrix_ok inferred groundtruth hlen hinf hgt

/-- Witness for C2 at concrete label lists of length three. -/
theorem confusion_matrix_spec_witness :
    (["True", "NEE", "True"] : List String).length =
      (["True", "False", "NEE"] : List String).length ∧
    ∃ tab, confusion_matrix ["True", "NEE", "True"] ["True", "False", "NEE"] = .ok tab ∧
      (∀ i g, i ∈ label_values → g ∈ label_values →
        tableGet tab i g =
          some (cnt i g ((["True", "NEE", "True"] : List String).zip
            ["True", "False", "NEE"]))) ∧
      tableSum tab = (["True", "NEE", "True"] : List String).length :=
  ⟨by decide,
   confusion_matrix_spec ["True", "NEE", "True"] ["True", "False", "NEE"]
     (by decide) (by decide) (by decide)⟩

/-- C10: `confusion_matrix` is partial at its interface — it fails with the
assertion error whenever the two lists have different lengths, fails with a
`KeyError` whenever (at equal lengths) some element of either list lies
outside the three labels, and the `KeyError` case is reachable through
`assess_claims`, which only strips punctuation and whitespace from the
model's output. -/
theorem confusion_matrix_failure_modes :
    (∀ inferred groundtruth : List String, inferred.length ≠ groundtruth.length →
      confusion_matrix inferred groundtruth = .error .assertionError) ∧
    (∀ inferred groundtruth : List String, inferred.length = groundtruth.length →
      ((∃ x ∈ inferred, x ∉ label_values) ∨ (∃ x ∈ groundtruth, x ∉ label_values)) →
      confusion_matrix inferred groundtruth = .error .keyError) ∧
    (∀ oracle : ChatOracle, ∀ claim gt : String,
      pyStrip (oracle (build_prompt claim)) ∉ label_values → gt ∈ label_values →
      confusion_matrix (assess_claims oracle [claim]) [gt] = .error .keyError) := by
  have hkey : ∀ inferred groundtruth : List String,
      inferred.length = groundtruth.length →
      ((∃ x ∈ inferred, x ∉ label_values) ∨ (∃ x ∈ groundtruth, x ∉ label_values)) →
      confusion_matrix inferred groundtruth = .error .keyError := by
    intro inferred groundtruth hlen hbad
    have hpair : ∃ p ∈ inferred.zip groundtruth,
        p.1 ∉ label_values ∨ p.2 ∉ label_values := by
      rcases hbad with ⟨x, hx, hxbad⟩ | ⟨y, hy, hybad⟩
      · obtain ⟨y, hxy⟩ := exists_zip_left inferred groundtruth hlen x hx
        exact ⟨(x, y), hxy, Or.inl hxbad⟩
      · obtain ⟨x, hxy⟩ := exists_zip_right inferred groundtruth hlen y hy
        exact ⟨(x, y), hxy, Or.inr hybad⟩
    rw [confusion_matrix, if_pos hlen, confusion_init_eq]
    exact cmFold_err (inferred.zip groundtruth) 0 0 0 0 0 0 0 0 0 hpair
  refine ⟨?_, hkey, ?_⟩
  · intro inferred groundtruth hlen
    rw [confusion_matrix, if_neg hlen]
  · intro oracle claim gt hbad hgt
    have hone : assess_claims oracle [claim] = [pyStrip (oracle (build_prompt claim))] := by
      rw [assess_claims_eq_map]; rfl
    rw [hone]
    exact hkey _ [gt] rfl (Or.inl ⟨_, List.mem_singleton_self _, hbad⟩)

/-- Witness for C10: a length mismatch, an illegal label, and an illegal
label produced through `assess_claims` from an oracle answering `"Maybe"`. -/
theorem confusion_matrix_failure_modes_witness :
    confusion_matrix ["True"] [] = .error .assertionError ∧
    confusion_matrix ["True", "Maybe"] ["True", "False"] = .error .keyError ∧
    confusion_matrix (assess_claims (fun _ => "Maybe") ["a claim"]) ["True"] =
      .error .keyError :=
  ⟨confusion_matrix_failure_modes.1 ["True"] [] (by decide),
   confusion_matrix_failure_modes.2.1 ["True", "Maybe"] ["True", "False"] (by decide)
     (Or.inl ⟨"Maybe", by decide, by decide⟩),
   confusion_matrix_failure_modes.2.2 (fun _ => "Maybe") "a claim" "True" (by decide) (by decide)⟩

/-- C4 counterexample: `confusion_matrix` does not succeed on every pair of
label lists — on lists of different lengths its `assert` fails, so the logic
is neither branch-free nor free of failure. -/
theorem confusion_matrix_not_total :
    confusion_matrix ["False"] [] = .error .assertionError := rfl

/-- C4 amended: the filtering, tabulation and templating are simple
in-memory data manipulation, but they do branch on their input and
`confusion_matrix` is not total: it succeeds on every pair of equal-length
lists of the three labels and fails its assertion otherwise;
`assess_claims_with_context` is total, producing one response per zipped
pair; filtering keeps an aligned result aligned; and `filter_query_result`
takes input-dependent branches on the distances. -/
theorem data_manipulation_spec :
    (∀ inferred groundtruth : List String, inferred.length = groundtruth.length →
      (∀ x ∈ inferred, x ∈ label_values) → (∀ x ∈ groundtruth, x ∈ label_values) →
      ∃ tab, confusion_matrix inferred groundtruth = .ok tab) ∧
    (∀ inferred groundtruth : List String, inferred.length ≠ groundtruth.length →
      confusion_matrix inferred groundtruth = .error .assertionError) ∧
    (∀ (oracle : ChatOracle) (claims : List String) (contexts : List (List String)),
      (assess_claims_with_context oracle claims contexts).length =
        min claims.length contexts.length) ∧
    (∀ (qr : QueryResult) (t : ℚ), alignedQR qr → alignedQR (filter_query_result qr t)) ∧
    filterTriple (1/4) ["a"] ["d"] [1/2] ≠ filterTriple (1/4) ["a"] ["d"] [1/8] := by
  have h1 : filterTriple (1/4) ["a"] ["d"] [1/2] = ([], [], []) := by
    norm_num [filterTriple, popPass]
  have h2 : filterTriple (1/4) ["a"] ["d"] [1/8] = (["a"], ["d"], [1/8]) := by
    norm_num [filterTriple, popPass]
  refine ⟨?_, ?_, ?_, alignedQR_filter, fun heq => by rw [h1, h2] at heq; simp at heq⟩
  · intro inferred groundtruth hlen hinf hgt
    obtain ⟨tab, htab, -, -⟩ := confusion_matrix_ok inferred groundtruth hlen hinf hgt
    exact ⟨tab, htab⟩
  · intro inferred groundtruth hlen
    rw [confusion_matrix, if_neg hlen]
  · intro oracle claims contexts
    rw [assess_claims_with_context_eq_map]
    simp [List.length_zip]

/-- Witness for C4 (amended) at concrete inputs. -/
theorem data_manipulation_spec_witness :
    (∃ tab, confusion_matrix ["False"] ["NEE"] = .ok tab) ∧
    (assess_claims_with_context (fun _ => "NEE") ["c"] []).length = min 1 0 ∧
    alignedQR (filter_query_result ⟨[["q"]], [["dq"]], [[1/3]]⟩ (1/4)) :=
  ⟨data_manipulation_spec.1 ["False"] ["NEE"] (by decide) (by decide) (by decide),
   data_manipulation_spec.2.2.1 (fun _ => "NEE") ["c"] [],
   data_manipulation_spec.2.2.2.1 ⟨[["q"]], [["dq"]], [[1/3]]⟩ (1/4) (by decide)⟩

theorem corpus_batches_cons (rows : List CorpusRow) (hpos : 0 < rows.length) :
    corpus_batches rows = rows.take 100 :: corpus_batches (rows.drop 100) := by
  unfold corpus_batches strideRange batch_size
  have hcount : (rows.length + 100 - 1) / 100 = ((rows.drop 100).length + 100 - 1) / 100 + 1 := by
    simp only [List.length_drop]
    omega
  rw [hcount, List.range_succ_eq_map]
  simp only [List.map_cons, List.map_map, Nat.mul_zero, List.drop_zero]
  congr 1
  apply List.map_congr_left
  intro j hj
  simp only [Function.comp]
  rw [List.drop_drop]
  congr 2
  omega

theorem corpus_batches_flatten : ∀ rows : List CorpusRow, (corpus_batches rows).flatten = rows := by
  suffices H : ∀ (n : Nat) (rows : List CorpusRow), rows.length ≤ n →
      (corpus_batches rows).flatten = rows by
    exact fun rows => H rows.length rows Nat.le.refl
  intro n
  induction n with
  | zero =>
    intro rows hlen
    have hnil : rows = [] := List.eq_nil_of_length_eq_zero (by omega)
    subst hnil
    rfl
  | succ n ih =>
    intro rows hlen
    by_cases hr : rows = []
    · subst hr; rfl
    · have hpos : 0 < rows.length := List.length_pos.mpr hr
      rw [corpus_batches_cons rows hpos, List.flatten_cons,
          ih (rows.drop 100) (by simp only [List.length_drop]; omega)]
      exact List.take_append_drop 100 rows

theorem corpus_batches_le (rows : List CorpusRow) :
    ∀ b ∈ corpus_batches rows, b.length ≤ batch_size := by
  intro b hb
  simp only [corpus_batches, strideRange, List.map_map, List.mem_map, List.mem_range] at hb
  obtain ⟨j, hj, hbe⟩ := hb
  rw [← hbe]
  simp only [Function.comp, List.length_take, batch_size]
  omega

theorem added_records_eq (rows : List CorpusRow) :
    added_records rows = rows.map (fun r => (rowId r, rowDocument r, r.structured)) := by
  have hdef : added_records rows =
      ((corpus_batches rows).map
        (fun b => b.map (fun r => (rowId r, rowDocument r, r.structured)))).flatten := rfl
  rw [hdef, ← List.map_flatten, corpus_batches_flatten]

/-- C6: the corpus-ingestion loop partitions the corpus dataframe into
consecutive batches of at most 100 rows, adding every row to the collection
exactly once and in dataframe order, with id `str(doc_id)` and document
`title + '. ' + ' '.join(abstract)`. -/
theorem corpus_ingestion_spec (rows : List CorpusRow) :
    (corpus_batches rows).flatten = rows ∧
    (∀ b ∈ corpus_batches rows, b.length ≤ batch_size) ∧
    added_records rows = rows.map (fun r => (rowId r, rowDocument r, r.structured)) :=
  ⟨corpus_batches_flatten rows, corpus_batches_le rows, added_records_eq rows⟩

/-- Witness for C6 on a one-row corpus. -/
theorem corpus_ingestion_spec_witness :
    (corpus_batches [⟨4983, "T", ["a", "b"], false⟩]).flatten =
      [⟨4983, "T", ["a", "b"], false⟩] ∧
    ([⟨4983, "T", ["a", "b"], false⟩] : List CorpusRow) ∈
      corpus_batches [⟨4983, "T", ["a", "b"], false⟩] ∧
    ([⟨4983, "T", ["a", "b"], false⟩] : List CorpusRow).length ≤ batch_size ∧
    added_records [⟨4983, "T", ["a", "b"], false⟩] =
      [⟨4983, "T", ["a", "b"], false⟩].map (fun r => (rowId r, rowDocument r, r.structured)) :=
  ⟨(corpus_ingestion_spec [⟨4983, "T", ["a", "b"], false⟩]).1,
   by decide,
   (corpus_ingestion_spec [⟨4983, "T", ["a", "b"], false⟩]).2.1
     [⟨4983, "T", ["a", "b"], false⟩] (by decide),
   (corpus_ingestion_spec [⟨4983, "T", ["a", "b"], false⟩]).2.2⟩
